import Mathlib

/-!
Verification of the `genconstructor` generator (soichisumi/go-genconstructor,
file genconstructor.go) against its natural-language specification.

The development shallowly embeds the per-package generation pipeline of
`Run` (genconstructor.go lines 60-253): doc-comment marker and option
scanning, field classification by struct tags, import-entry collection,
the fixed `text/template` constructor rendering, and the assembly of one
output file per package group.  The AST walker, the `strcase` camel-case
library, the `genutil` type/import resolution helpers and
`genutil.GoFmtImports` are external collaborators of the repository; they
are modelled from their contracts as stated in the specification, and the
corresponding definitions say so in their doc comments.  Go's
nondeterministic `map` iteration order is made explicit as an enumeration
function argument where the code ranges over the accumulated import map.
-/

namespace Genconstructor

/-! ## String helpers (structural embeddings of the Go stdlib calls used) -/

/-- Splitting a character list at every separator character, dropping empty
runs.  This is the semantics of Go's `strings.FieldsFunc`. -/
def splitDrop (p : Char → Bool) : List Char → List Char → List String
  | cur, [] => if cur.isEmpty then [] else [String.mk cur.reverse]
  | cur, c :: cs =>
    if p c then
      if cur.isEmpty then splitDrop p [] cs
      else String.mk cur.reverse :: splitDrop p [] cs
    else splitDrop p (c :: cur) cs

/-- Go `strings.FieldsFunc f s`: the maximal runs of characters of `s` not
satisfying `f`. -/
def goFieldsFunc (p : Char → Bool) (s : String) : List String :=
  splitDrop p [] s.toList

/-- Go `strings.Fields s`: split around runs of whitespace. -/
def goFields (s : String) : List String :=
  goFieldsFunc (fun c => c.isWhitespace) s

/-- Go `strings.TrimSpace`: drop leading and trailing whitespace. -/
def goTrimSpace (s : String) : String :=
  String.mk (((s.toList.dropWhile Char.isWhitespace).reverse.dropWhile
    Char.isWhitespace).reverse)

/-- Go `strings.HasPrefix s pre`. -/
def goHasPrefix (s pre : String) : Bool :=
  pre.toList.isPrefixOf s.toList

/-- Infix test on character lists. -/
def listInfix (pat : List Char) : List Char → Bool
  | [] => pat.isEmpty
  | c :: cs => pat.isPrefixOf (c :: cs) || listInfix pat cs

/-- Substring containment test, used to state facts about generated text. -/
def containsStr (s pat : String) : Bool :=
  listInfix pat.toList s.toList

/-- A run of `n` tab characters, for spelling out the template literals. -/
def tabs (n : Nat) : String :=
  String.mk (List.replicate n '\t')

/-! ## Model of the external `strcase` word functions

Modelled from the spec: the repository calls `strcase.ToUpperCamel`,
`strcase.ToLowerCamel` and `strcase.SplitIntoWords` of the external
go-strcase library; the specification (section 4.3) says word splitting
follows standard camel-case boundary rules, so the model starts a new word
at each upper-case letter and at each `_`, `-` or space separator. -/

/-- Word-splitting worker: `cur` is the current word, reversed. -/
def splitWordsAux : List Char → List Char → List (List Char)
  | cur, [] => if cur.isEmpty then [] else [cur.reverse]
  | cur, c :: cs =>
    if c = '_' || c = '-' || c = ' ' then
      if cur.isEmpty then splitWordsAux [] cs
      else cur.reverse :: splitWordsAux [] cs
    else if c.isUpper then
      if cur.isEmpty then splitWordsAux [c] cs
      else cur.reverse :: splitWordsAux [c] cs
    else splitWordsAux (c :: cur) cs

/-- Modelled from the spec: `strcase.SplitIntoWords`, camel-case boundary
splitting. -/
def splitIntoWords (s : String) : List String :=
  (splitWordsAux [] s.toList).map String.mk

/-- Upper-case the first character of a word. -/
def capitalizeWord (w : String) : String :=
  match w.toList with
  | [] => ""
  | c :: cs => String.mk (c.toUpper :: cs)

/-- Lower-case the first character of a word. -/
def decapitalizeWord (w : String) : String :=
  match w.toList with
  | [] => ""
  | c :: cs => String.mk (c.toLower :: cs)

/-- Modelled from the spec: `strcase.ToUpperCamel`. -/
def toUpperCamel (s : String) : String :=
  String.join ((splitIntoWords s).map capitalizeWord)

/-- Modelled from the spec: `strcase.ToLowerCamel`. -/
def toLowerCamel (s : String) : String :=
  match splitIntoWords s with
  | [] => ""
  | w :: ws => decapitalizeWord w ++ String.join (ws.map capitalizeWord)

/-! ## The `match` helper (genconstructor.go lines 270-282) -/

/-- The set `mb` built by `match`: a Go `map[string]struct{}` over the words
of `b`, embedded as a duplicate-free list of keys. -/
def wordSet (b : List String) : List String :=
  b.foldl (fun m x => if m.contains x then m else m ++ [x]) []

/-- Embedding of `match` (genconstructor.go lines 270-282): the elements of
`a`, in order, that are present in the key set built from `b`. -/
def matchWords (a b : List String) : List String :=
  a.filter (fun x => (wordSet b).contains x)

/-- The interface name computed for the `-e` option (genconstructor.go
lines 178-181). -/
def extendsInterfaceName (superName typeName : String) : String :=
  String.join (matchWords (splitIntoWords (toUpperCamel superName))
    (splitIntoWords (toUpperCamel typeName)))

/-! ## Marker and option parsing (genconstructor.go lines 34-39, 84-113) -/

/-- The marker token constants (genconstructor.go lines 34-39). -/
def commentMarker : String := "//genconstructor"

def pointerOpts : String := "-p"

def superOpts : String := "-s"

def extendsOpts : String := "-e"

/-- The three per-type option flags of `Run` (genconstructor.go
lines 88-90). -/
structure Opts where
  hasPointerOpts : Bool
  hasSuperOpts : Bool
  hasExtendsOpts : Bool
deriving DecidableEq, Repr

/-- Embedding of the token loop of genconstructor.go lines 94-107: the
first token equal to one of `-p`, `-s`, `-e` sets its flag and breaks. -/
def scanOpts : List String → Opts
  | [] => ⟨false, false, false⟩
  | s :: rest =>
    if s = pointerOpts then ⟨true, false, false⟩
    else if s = superOpts then ⟨false, true, false⟩
    else if s = extendsOpts then ⟨false, false, true⟩
    else scanOpts rest

/-- One doc comment attached to a struct type (an `ast.Comment`; its text
includes the leading `//`). -/
structure GoComment where
  text : String
deriving DecidableEq, Repr

/-- Embedding of the comment loop of genconstructor.go lines 91-110: the
first comment whose trimmed text starts with the marker. -/
def findMarkerComment : List GoComment → Option GoComment
  | [] => none
  | c :: rest =>
    if goHasPrefix (goTrimSpace c.text) commentMarker then some c
    else findMarkerComment rest

/-! ## Fields and their classification (genconstructor.go lines 115-172) -/

deriving instance DecidableEq for Except

/-- A struct field as the generator sees it through the walker.
`name` is `genutil.ParseFieldName(field)`; `tag` is the parsed key/value
entries of the field's struct tag (`none` when `field.Tag == nil`);
`typePrint` is the result of `walker.ToTypePrinter(field.Type)` followed by
`.Print(walker.PkgPath)` (an error when the type expression cannot be
resolved); `typeImports` is that printer's `ImportPkgMap` (alias to import
path); `fileImports` is `genutil.AstFileToImportMap(walker.ToFile(field))`,
the declaring file's alias-to-path import table. -/
structure GoField where
  name : String
  tag : Option (List (String × String))
  typePrint : Except String String
  typeImports : List (String × String)
  fileImports : List (String × String)
deriving DecidableEq, Repr

/-- Embedding of `reflect.StructTag.Lookup`: the value of the first entry
with the given key. -/
def tagLookup (entries : List (String × String)) (key : String) : Option String :=
  (entries.find? (fun e => e.1 = key)).map (fun e => e.2)

/-- Does the field carry the `required` tag key (genconstructor.go
line 125)? -/
def hasRequiredTagB (f : GoField) : Bool :=
  match f.tag with
  | none => false
  | some es => (tagLookup es "required").isSome

/-- Does the field carry the `super` tag key (genconstructor.go
line 127)? -/
def hasSuperTagB (f : GoField) : Bool :=
  match f.tag with
  | none => false
  | some es => (tagLookup es "super").isSome

/-- A field enters the synthesis set iff it has a tag carrying at least one
of the two recognized keys (genconstructor.go lines 120-130). -/
def includedB (f : GoField) : Bool :=
  match f.tag with
  | none => false
  | some es => (tagLookup es "required").isSome || (tagLookup es "super").isSome

/-- The constant value carried by the field: the `required` tag value, or
`""` when absent (Go's zero value from `Lookup`). -/
def constValueOf (f : GoField) : String :=
  match f.tag with
  | none => ""
  | some es => ((tagLookup es "required").getD "")

/-- Identifier tokens of a constant-value expression: split on every
character that is not a letter and not `.`, `_`, `-` (genconstructor.go
lines 150-152; Go's `unicode.IsLetter` is restricted to its ASCII part
in this model). -/
def constTokens (cv : String) : List String :=
  goFieldsFunc (fun c => !c.isAlpha && c ≠ '.' && c ≠ '_' && c ≠ '-') cv

/-- Modelled from the spec: `genutil.ToTypePrinter(importMap, pkgPath, s)`
followed by `ImportPkgMap` for one identifier token `s` of a constant
expression (genconstructor.go lines 154-164).  Per specification section
4.4, a package-qualified identifier is resolved against the declaring
file's import aliases and contributes that alias/path entry; an
unqualified identifier contributes nothing; a qualifier not present in
the import table is an error. -/
def resolveIdentImports (fileImports : List (String × String)) (s : String) :
    Except String (List (String × String)) :=
  if s.toList.contains '.' then
    let q := String.mk (s.toList.takeWhile (fun c => c ≠ '.'))
    match fileImports.lookup q with
    | some path => .ok [(q, path)]
    | none => .error ("cannot resolve identifier " ++ s)
  else .ok []

/-- Resolve every token of a constant expression, concatenating the
resulting import entries in order (genconstructor.go lines 153-165). -/
def resolveTokens (fileImports : List (String × String)) :
    List String → Except String (List (String × String))
  | [] => .ok []
  | t :: ts =>
    match resolveIdentImports fileImports t with
    | .error e => .error e
    | .ok es =>
      match resolveTokens fileImports ts with
      | .error e => .error e
      | .ok rest => .ok (es ++ rest)

/-- The import entries contributed by one included field (genconstructor.go
lines 148-171): for a non-empty constant value the resolved entries of its
identifier tokens, otherwise the field's own type imports. -/
def fieldImportEntries (f : GoField) (constValue : String) :
    Except String (List (String × String)) :=
  if constValue ≠ "" then resolveTokens f.fileImports (constTokens constValue)
  else .ok f.typeImports

/-- Is an `Except` an error? -/
def exceptErr {ε α : Type} : Except ε α → Bool
  | .error _ => true
  | .ok _ => false

/-- The field makes classification fail: its type cannot be printed, or an
identifier of its constant expression cannot be resolved. -/
def fieldFailsB (f : GoField) : Bool :=
  exceptErr f.typePrint || exceptErr (fieldImportEntries f (constValueOf f))

/-- The per-field record handed to the constructor template
(genconstructor.go lines 264-268).  The Go field `Type` is a reserved word
in Lean and is embedded as `TypeStr`. -/
structure FieldInfo where
  TypeStr : String
  Name : String
  ConstValue : String
deriving DecidableEq, Repr

/-- The printed type of a field, defaulting to `""` on a print error (only
used under hypotheses that exclude the error). -/
def typePrintD (f : GoField) : String :=
  match f.typePrint with
  | .ok t => t
  | .error _ => ""

/-- The `FieldInfo` built for an included field (genconstructor.go
lines 138-142). -/
def infoOf (f : GoField) : FieldInfo :=
  ⟨typePrintD f, f.name, constValueOf f⟩

/-- The mutable state of the field loop of `Run` (genconstructor.go
lines 117-172): the collected `fieldInfos`, the `superName` of the last
field tagged `super`, and the import entries merged so far, in merge
order. -/
structure ClassifyState where
  fieldInfos : List FieldInfo
  superName : String
  entries : List (String × String)
deriving DecidableEq, Repr

/-- One iteration of the field loop (genconstructor.go lines 119-172). -/
def classifyStep (st : ClassifyState) (f : GoField) : Except String ClassifyState :=
  match f.tag with
  | none => .ok st
  | some tes =>
    let required? := tagLookup tes "required"
    let constValue := required?.getD ""
    let hasSuperTag := (tagLookup tes "super").isSome
    if !required?.isSome && !hasSuperTag then .ok st
    else
      match f.typePrint with
      | .error e => .error e
      | .ok ty =>
        match fieldImportEntries f constValue with
        | .error e => .error e
        | .ok es =>
          .ok ⟨st.fieldInfos ++ [⟨ty, f.name, constValue⟩],
               if hasSuperTag then f.name else st.superName,
               st.entries ++ es⟩

/-- The field loop, threading its state. -/
def classifyGo (st : ClassifyState) : List GoField → Except String ClassifyState
  | [] => .ok st
  | f :: fs =>
    match classifyStep st f with
    | .error e => .error e
    | .ok st' => classifyGo st' fs

/-- Classification of a whole field list, from the zero state. -/
def classifyFields (fs : List GoField) : Except String ClassifyState :=
  classifyGo ⟨[], "", []⟩ fs

/-! ## The constructor template (genconstructor.go lines 183-213)

The fixed `text/template` text is expanded by hand, trim-marker by trim
marker, into the literal pieces below; tabs and newlines are those of the
raw template literal in the source. -/

/-- The template data (genconstructor.go lines 255-262). -/
structure TmplParam where
  StructName : String
  InterfaceName : String
  Fields : List FieldInfo
  Pointer : Bool
  Super : Bool
  Extends : Bool
deriving DecidableEq, Repr

/-- The parameter-list fragment a field contributes: nothing for a
constant-valued field (`if not .ConstValue`), otherwise one parameter line;
under `-e` a field whose upper-camel name equals the interface name becomes
the interface-typed parameter `x`. -/
def paramFragment (p : TmplParam) (f : FieldInfo) : Option String :=
  if f.ConstValue ≠ "" then none
  else some ("\n" ++ tabs 9 ++
    (if p.Extends && (toUpperCamel f.Name = p.InterfaceName) then
      "x " ++ p.InterfaceName
    else toLowerCamel f.Name ++ " " ++ f.TypeStr) ++ ",")

/-- The value assigned to a field in the literal body: its constant value
verbatim when non-empty, the down-cast `x.(*Name)` for the
interface-matched field under `-e`, the parameter otherwise. -/
def assignValue (p : TmplParam) (f : FieldInfo) : String :=
  if f.ConstValue ≠ "" then f.ConstValue
  else if p.Extends && (toUpperCamel f.Name = p.InterfaceName) then
    "x.(*" ++ f.Name ++ ")"
  else toLowerCamel f.Name

/-- The body-assignment line a field contributes. -/
def assignFragment (p : TmplParam) (f : FieldInfo) : String :=
  "\n" ++ tabs 10 ++ f.Name ++ ": " ++ assignValue p f ++ ","

/-- The declared result type: `*` when `Pointer`, then the interface name
when `Super` or `Extends`, the struct name otherwise. -/
def returnTypeStr (p : TmplParam) : String :=
  (if p.Pointer then "*" else "") ++
    (if p.Super || p.Extends then p.InterfaceName else p.StructName)

/-- The address-of applied to the literal: `&` when any of `Pointer`,
`Super`, `Extends` is set. -/
def ampStr (p : TmplParam) : String :=
  if p.Pointer || p.Super || p.Extends then "&" else ""

/-- Full expansion of the constructor template for one marked type. -/
def renderConstructor (p : TmplParam) : String :=
  "\nfunc New" ++ toUpperCamel p.StructName ++ "(" ++
  String.join (p.Fields.filterMap (paramFragment p)) ++
  "\n" ++ tabs 6 ++ ") " ++ returnTypeStr p ++ " \x7b" ++
  "\n" ++ tabs 7 ++ "return " ++ ampStr p ++ p.StructName ++ "\x7b" ++
  String.join (p.Fields.map (assignFragment p)) ++
  "\n" ++ tabs 7 ++ "\x7d" ++
  "\n" ++ tabs 6 ++ "\x7d" ++
  "\n" ++ tabs 5

/-! ## Per-struct and per-group processing (genconstructor.go lines 73-250) -/

/-- A struct type declaration with its attached doc comments (the union of
`spec.Doc` and the enclosing `GenDecl`'s doc, genconstructor.go
lines 77-83). -/
structure StructSpec where
  name : String
  docs : List GoComment
  fields : List GoField
deriving DecidableEq, Repr

/-- Is the struct marked for generation? -/
def markedB (s : StructSpec) : Bool :=
  (findMarkerComment s.docs).isSome

/-- Processing of one struct spec (genconstructor.go lines 76-214): the
rendered constructor text appended to the body buffer and the import
entries merged into the group's import map, or nothing for an unmarked
type, or the first error. -/
def processSpec (s : StructSpec) : Except String (String × List (String × String)) :=
  if s.docs.isEmpty then .ok ("", [])
  else
    match findMarkerComment s.docs with
    | none => .ok ("", [])
    | some c =>
      let o := scanOpts (goFields c.text)
      match classifyFields s.fields with
      | .error e => .error e
      | .ok st =>
        let ifc1 := if o.hasSuperOpts then toUpperCamel s.name else ""
        let interfaceName :=
          if o.hasExtendsOpts then extendsInterfaceName st.superName s.name
          else ifc1
        .ok (renderConstructor
          ⟨s.name, interfaceName, st.fieldInfos,
            o.hasPointerOpts, o.hasSuperOpts, o.hasExtendsOpts⟩,
          st.entries)

/-- All struct specs of one package group, in declaration order: the
concatenated body text and the concatenated import entries. -/
def processSpecs : List StructSpec → Except String (String × List (String × String))
  | [] => .ok ("", [])
  | s :: ss =>
    match processSpec s with
    | .error e => .error e
    | .ok (b, es) =>
      match processSpecs ss with
      | .error e => .error e
      | .ok (b', es') => .ok (b ++ b', es ++ es')

/-- One compilation-unit group (an `ast.Package` with its struct specs). -/
structure PkgGroup where
  pkgName : String
  specs : List StructSpec
deriving DecidableEq, Repr

/-- Assignment into the group's `importPackages` map: the alias keeps one
binding, last writer wins. -/
def mapInsertEntry (m : List (String × String)) (e : String × String) :
    List (String × String) :=
  m.filter (fun p => p.1 ≠ e.1) ++ [e]

/-- Ordering of alias/path entries by alias, then path;
`genutil.GoFmtImports` emits the import block in this sorted order. -/
def pairLe (a b : String × String) : Prop :=
  a.1 < b.1 ∨ (a.1 = b.1 ∧ a.2 ≤ b.2)

instance : DecidableRel pairLe := fun a b => by
  unfold pairLe; exact inferInstance

instance : IsTrans (String × String) pairLe :=
  ⟨by
    intro a b c hab hbc
    rcases hab with h1 | ⟨h1, h2⟩ <;> rcases hbc with h3 | ⟨h3, h4⟩
    · exact Or.inl (lt_trans h1 h3)
    · exact Or.inl (h3 ▸ h1)
    · exact Or.inl (lt_of_le_of_lt (le_of_eq h1) h3)
    · exact Or.inr ⟨h1.trans h3, le_trans h2 h4⟩⟩

instance : IsTotal (String × String) pairLe :=
  ⟨by
    intro a b
    rcases lt_trichotomy a.1 b.1 with h | h | h
    · exact Or.inl (Or.inl h)
    · rcases le_total a.2 b.2 with h2 | h2
      · exact Or.inl (Or.inr ⟨h, h2⟩)
      · exact Or.inr (Or.inr ⟨h.symm, h2⟩)
    · exact Or.inr (Or.inl h)⟩

instance : IsAntisymm (String × String) pairLe :=
  ⟨by
    intro a b hab hba
    rcases hab with h1 | ⟨h1, h2⟩ <;> rcases hba with h3 | ⟨h3, h4⟩
    · exact absurd h3 (lt_asymm h1)
    · exact absurd (h3 ▸ h1) (lt_irrefl a.1)
    · exact absurd h3 (by rw [h1]; exact lt_irrefl _)
    · exact Prod.ext h1 (le_antisymm h2 h4)⟩

/-- One rendered import line. -/
def goImportLine (e : String × String) : String :=
  "\t" ++ e.1 ++ " \"" ++ e.2 ++ "\"\n"

/-- Modelled from the spec: `genutil.GoFmtImports` renders the accumulated
alias-to-path map as a gofmt-style import block; gofmt output is sorted,
so the block is a function of the map's entry set, not of the enumeration
order. -/
def goFmtImports (es : List (String × String)) : String :=
  if es.isEmpty then ""
  else "import (\n" ++ String.join ((es.insertionSort pairLe).map goImportLine) ++ ")"

/-- The default generator name (genconstructor.go line 62). -/
def defaultGeneratorName : String := "go-genconstructor"

/-- Expansion of the outer file template (genconstructor.go
lines 221-229). -/
def assembleOut (genName pkgName importBlock body : String) : String :=
  "\n" ++ tabs 3 ++ "// Code generated by " ++ genName ++ "; DO NOT EDIT.\n\n" ++
  tabs 3 ++ "package " ++ pkgName ++ "\n\n" ++
  tabs 3 ++ importBlock ++ "\n\n" ++
  tabs 3 ++ body ++ "\n" ++ tabs 2

/-- Processing of one package group (genconstructor.go lines 73-250):
`none` when the body stayed empty (no file is emitted), otherwise the
assembled output text.  `enum` is the order in which Go's `range` happens
to enumerate the `importPackages` map when it is handed to
`GoFmtImports`. -/
def runGroupWith (enum : List (String × String) → List (String × String))
    (genName : String) (g : PkgGroup) : Except String (Option String) :=
  match processSpecs g.specs with
  | .error e => .error e
  | .ok (body, entries) =>
    if body = "" then .ok none
    else
      let table := entries.foldl mapInsertEntry []
      .ok (some (assembleOut genName g.pkgName (goFmtImports (enum table)) body))

/-- The whole run over the walker's groups: the written files (package
name and content) in order, and the error that aborted the run, if any.
On an error nothing is written for the failing group and processing
stops. -/
def runWith (enum : List (String × String) → List (String × String))
    (genName : String) : List PkgGroup → List (String × String) × Option String
  | [] => ([], none)
  | g :: gs =>
    match runGroupWith enum genName g with
    | .error e => ([], some e)
    | .ok none => runWith enum genName gs
    | .ok (some out) =>
      let (ws, e?) := runWith enum genName gs
      ((g.pkgName, out) :: ws, e?)

/-- The text written for a group (empty when nothing is written), with the
map enumerated in merge order. -/
def groupOutput (g : PkgGroup) : String :=
  match runGroupWith (fun l => l) defaultGeneratorName g with
  | .ok (some s) => s
  | _ => ""

/-! ## Derived observation functions used by the claim statements -/

/-- The import entries accumulated for a group by a successful pass
(`[]` when the pass fails). -/
def groupEntries (g : PkgGroup) : List (String × String) :=
  match processSpecs g.specs with
  | .ok (_, es) => es
  | .error _ => []

/-- Did the group's generation pass succeed? -/
def groupOkB (g : PkgGroup) : Bool :=
  !exceptErr (processSpecs g.specs)

/-- The group's accumulated import map `importPackages` as it stands at
assembly time. -/
def groupImportTable (g : PkgGroup) : List (String × String) :=
  (groupEntries g).foldl mapInsertEntry []

/-- Recognized option token test, mirroring the three comparisons of the
token loop. -/
def isOptToken (s : String) : Bool :=
  if s = pointerOpts then true
  else if s = superOpts then true
  else if s = extendsOpts then true
  else false

/-- The option record determined by the first recognized token, if any. -/
def optsFromFound : Option String → Opts
  | none => ⟨false, false, false⟩
  | some s =>
    if s = pointerOpts then ⟨true, false, false⟩
    else if s = superOpts then ⟨false, true, false⟩
    else ⟨false, false, true⟩

/-- How many of the three option flags are set. -/
def flagCount (o : Opts) : Nat :=
  (if o.hasPointerOpts then 1 else 0) + (if o.hasSuperOpts then 1 else 0) +
    (if o.hasExtendsOpts then 1 else 0)

/-- The import entries one field contributes, seen from outside: empty for
an excluded field, the collected entries otherwise (`[]` in the error case,
which the claims exclude by hypothesis). -/
def fieldEntriesD (f : GoField) : List (String × String) :=
  if includedB f then
    match fieldImportEntries f (constValueOf f) with
    | .ok es => es
    | .error _ => []
  else []

/-- Does alias `k` arise from field `f`'s import contribution: from the
tokens of its constant expression when it has one, from its own type's
imports otherwise? -/
def fieldImportKeyB (f : GoField) (k : String) : Bool :=
  if constValueOf f ≠ "" then
    (constTokens (constValueOf f)).any (fun t =>
      match resolveIdentImports f.fileImports t with
      | .ok es => (es.map Prod.fst).contains k
      | .error _ => false)
  else (f.typeImports.map Prod.fst).contains k

/-- Does alias `k` arise from some included field of some marked struct of
the group? -/
def groupImportKeyB (g : PkgGroup) (k : String) : Bool :=
  g.specs.any (fun s => markedB s &&
    s.fields.any (fun f => includedB f && fieldImportKeyB f k))

/-! ## Concrete inputs used by counterexamples and witnesses -/

/-- The spec's `Point` example: marker `//genconstructor -p`, fields `X`
and `Y` of type `int` with no struct tag. -/
def pointStruct : StructSpec :=
  ⟨"Point", [⟨"//genconstructor -p"⟩],
    [⟨"X", none, .ok "int", [], []⟩, ⟨"Y", none, .ok "int", [], []⟩]⟩

def pointGroup : PkgGroup := ⟨"geom", [pointStruct]⟩

/-- The spec's `AdminUser` example: marker `//genconstructor -e`, a field
`Base *UserBase` tagged `super` and a field `Role string` with constant
value `"admin"`. -/
def adminStruct : StructSpec :=
  ⟨"AdminUser", [⟨"//genconstructor -e"⟩],
    [⟨"Base", some [("super", "")], .ok "*UserBase", [], []⟩,
     ⟨"Role", some [("required", "\"admin\"")], .ok "string", [], []⟩]⟩

def adminGroup : PkgGroup := ⟨"user", [adminStruct]⟩

/-- A field carrying both recognized tag keys at once. -/
def bothField : GoField :=
  ⟨"Flag", some [("required", "1"), ("super", "")], .ok "bool", [], []⟩

/-- A struct with the `-s` option and no tagged field. -/
def superStruct : StructSpec :=
  ⟨"Animal", [⟨"//genconstructor -s"⟩], []⟩

def superGroup : PkgGroup := ⟨"zoo", [superStruct]⟩

/-- A field whose constant expression references an import alias that the
declaring file does not import: identifier resolution fails. -/
def badConstField : GoField :=
  ⟨"At", some [("required", "clock.Now()")], .ok "Time", [], []⟩

def badConstStruct : StructSpec :=
  ⟨"Event", [⟨"//genconstructor"⟩], [badConstField]⟩

def badConstGroup : PkgGroup := ⟨"event", [badConstStruct]⟩

/-- A field with the `required` key mapped to the empty string. -/
def emptyRequiredField : GoField :=
  ⟨"ID", some [("required", "")], .ok "uuid.UUID",
    [("uuid", "github.com/google/uuid")],
    [("uuid", "github.com/google/uuid")]⟩

/-- A group exercising both import-collection branches: a parameter field
whose type needs an import, and a constant field whose expression
references an imported package. -/
def importsStruct : StructSpec :=
  ⟨"Event", [⟨"//genconstructor"⟩],
    [emptyRequiredField,
     ⟨"At", some [("required", "time.Now()")], .ok "time.Time",
       [("time", "time")], [("time", "time")]⟩]⟩

def importsGroup : PkgGroup := ⟨"event", [importsStruct]⟩

/-! ## Lemmas about option scanning -/

theorem scanOpts_eq_optsFromFound (ts : List String) :
    scanOpts ts = optsFromFound (ts.find? isOptToken) := by
  induction ts with
  | nil => rfl
  | cons s rest ih =>
    by_cases h1 : s = pointerOpts
    · simp [scanOpts, List.find?_cons, isOptToken, optsFromFound, h1]
    · by_cases h2 : s = superOpts
      · simp [scanOpts, List.find?_cons, isOptToken, optsFromFound, h1, h2,
          superOpts, pointerOpts]
      · by_cases h3 : s = extendsOpts
        · simp [scanOpts, List.find?_cons, isOptToken, optsFromFound, h1, h2, h3,
            superOpts, pointerOpts, extendsOpts]
        · simpa [scanOpts, List.find?_cons, isOptToken, h1, h2, h3] using ih

theorem flagCount_optsFromFound (o : Option String) :
    flagCount (optsFromFound o) ≤ 1 := by
  cases o with
  | none => decide
  | some s =>
    simp only [optsFromFound]
    by_cases h1 : s = pointerOpts
    · rw [if_pos h1]; decide
    · rw [if_neg h1]
      by_cases h2 : s = superOpts
      · rw [if_pos h2]; decide
      · rw [if_neg h2]; decide

/-! ## Lemmas about the word matching of `match` -/

theorem wordSet_foldl_contains (b : List String) :
    ∀ (m : List String) (x : String),
      ((b.foldl (fun m x => if m.contains x then m else m ++ [x]) m).contains x)
        = (m.contains x || b.contains x) := by
  induction b with
  | nil => intro m x; simp
  | cons y ys ih =>
    intro m x
    simp only [List.foldl_cons]
    by_cases hy : m.contains y
    · rw [if_pos hy, ih]
      by_cases hxy : x = y
      · subst hxy
        have hx : x ∈ m := by simpa using hy
        simp [hx]
      · simp [hxy]
    · rw [if_neg hy, ih]
      by_cases hxy : x = y
      · subst hxy
        simp
      · simp [List.mem_append, List.mem_cons, hxy]

theorem wordSet_contains (b : List String) (x : String) :
    (wordSet b).contains x = b.contains x := by
  unfold wordSet
  have h := wordSet_foldl_contains b [] x
  simpa using h

theorem matchWords_eq_filter (a b : List String) :
    matchWords a b = a.filter (fun x => b.contains x) := by
  unfold matchWords
  exact List.filter_congr (fun x _ => wordSet_contains b x)

/-! ## Claim C1 -/

/-- Claim C1, counterexample: for the `Point` type with doc marker
`//genconstructor -p` and untagged fields `X int`, `Y int`, the generated
output does contain a constructor named `NewPoint`, contrary to the claim
that no constructor is produced. -/
theorem C1_counterexample :
    containsStr (groupOutput pointGroup) "func NewPoint(" = true := by decide

/-- Claim C1, amended: the `Point` type with marker `//genconstructor -p`
and no tagged field produces exactly one constructor, `NewPoint`, with an
empty parameter list, returning `*Point` through an address-taken empty
literal; the marker alone triggers generation, a tagged field is not
required. -/
theorem C1_point_generates :
    processSpec pointStruct =
      .ok ("\nfunc NewPoint(\n\t\t\t\t\t\t) *Point \x7b\n\t\t\t\t\t\t\treturn &Point\x7b\n\t\t\t\t\t\t\t\x7d\n\t\t\t\t\t\t\x7d\n\t\t\t\t\t",
        []) := by decide

/-! ## Claim C2 -/

/-- Claim C2, counterexample: for `AdminUser` with `//genconstructor -e`,
field `Base *UserBase` tagged `super` and field `Role string` with constant
`"admin"`, the constructor exists but its parameter is not typed as an
interface `User` and no down-cast occurs, because the interface name is
computed from the field name `Base`, whose words share nothing with
`AdminUser`, yielding the empty string. -/
theorem C2_counterexample :
    containsStr (groupOutput adminGroup) "func NewAdminUser(" = true ∧
    containsStr (groupOutput adminGroup) "x User" = false ∧
    containsStr (groupOutput adminGroup) ".(*" = false ∧
    extendsInterfaceName "Base" "AdminUser" = "" := by decide

/-- Claim C2, amended: for the `AdminUser` example the generated
constructor is `NewAdminUser` with the single ordinary parameter
`base *UserBase`; the inferred interface name is the word intersection of
the field name `Base` (not the type `UserBase`) with `AdminUser`, which is
empty, so the declared result type is the empty string; the body assigns
`Base` directly from the parameter, with no down-cast, and `Role` to the
literal `"admin"`. -/
theorem C2_admin_output :
    processSpec adminStruct =
      .ok ("\nfunc NewAdminUser(\n\t\t\t\t\t\t\t\t\tbase *UserBase,\n\t\t\t\t\t\t)  \x7b\n\t\t\t\t\t\t\treturn &AdminUser\x7b\n\t\t\t\t\t\t\t\t\t\tBase: base,\n\t\t\t\t\t\t\t\t\t\tRole: \"admin\",\n\t\t\t\t\t\t\t\x7d\n\t\t\t\t\t\t\x7d\n\t\t\t\t\t",
        []) := by decide

/-! ## Claim C4 -/

/-- Claim C4, counterexample: a marked type with the `-s` option has the
pointer option absent, yet the construction body does take the address of
the literal. -/
theorem C4_counterexample :
    (scanOpts (goFields "//genconstructor -s")).hasPointerOpts = false ∧
    containsStr (groupOutput superGroup) "return &Animal\x7b" = true := by decide

/-- Claim C4, amended: with only the pointer option set the constructor
returns the pointer form `*StructName` and takes the literal's address;
with none of the three options it returns the struct by value with no
address-of; with `super` or `extends` set the literal's address is taken
as well and the declared result is the interface name. -/
theorem C4_return_shape (p : TmplParam) :
    (p.Pointer = true → p.Super = false → p.Extends = false →
      returnTypeStr p = "*" ++ p.StructName ∧ ampStr p = "&") ∧
    (p.Pointer = false → p.Super = false → p.Extends = false →
      returnTypeStr p = p.StructName ∧ ampStr p = "") ∧
    (p.Super = true ∨ p.Extends = true →
      ampStr p = "&" ∧
        returnTypeStr p = (if p.Pointer then "*" else "") ++ p.InterfaceName) := by
  refine ⟨?_, ?_, ?_⟩
  · intro hp hs he
    simp [returnTypeStr, ampStr, hp, hs, he]
  · intro hp hs he
    simp [returnTypeStr, ampStr, hp, hs, he]
  · intro h
    rcases h with h | h <;> simp [returnTypeStr, ampStr, h]

/-- Claim C4, witness instantiating the amended theorem at a concrete
pointer-optioned parameter set. -/
theorem C4_witness :
    returnTypeStr ⟨"Point", "", [], true, false, false⟩ = "*" ++ "Point" ∧
    ampStr ⟨"Point", "", [], true, false, false⟩ = "&" :=
  (C4_return_shape ⟨"Point", "", [], true, false, false⟩).1 rfl rfl rfl

/-! ## Claim C5 -/

/-- Claim C5: under the `extends` option the inferred interface name is
the concatenation, in base-field word order, of exactly those words of the
upper-camel-cased base field name that occur among the words of the
upper-camel-cased type name (duplicates each kept when present), and when
no word matches the interface name is the empty string. -/
theorem C5_extends_interface_name (base ty : String) :
    extendsInterfaceName base ty =
      String.join ((splitIntoWords (toUpperCamel base)).filter
        (fun w => (splitIntoWords (toUpperCamel ty)).contains w)) ∧
    ((∀ w ∈ splitIntoWords (toUpperCamel base),
        (splitIntoWords (toUpperCamel ty)).contains w = false) →
      extendsInterfaceName base ty = "") := by
  constructor
  · unfold extendsInterfaceName
    rw [matchWords_eq_filter]
  · intro h
    unfold extendsInterfaceName
    rw [matchWords_eq_filter]
    have : (splitIntoWords (toUpperCamel base)).filter
        (fun w => (splitIntoWords (toUpperCamel ty)).contains w) = [] := by
      rw [List.filter_eq_nil_iff]
      intro w hw
      have hc := h w hw
      simpa using hc
    rw [this]
    rfl

/-- Claim C5, witness: the `extends` inference for base-field name `Base`
inside type `AdminUser` has no matching word and yields the empty
interface name. -/
theorem C5_witness : extendsInterfaceName "Base" "AdminUser" = "" :=
  (C5_extends_interface_name "Base" "AdminUser").2 (by decide)

/-! ## Claim C6 -/

/-- Claim C6, counterexample: the comment line `//genconstructor -e -s`
contains both `-s` and `-e`, but the scan picks `-e` (the first recognized
token), not `-s` as the claim states. -/
theorem C6_counterexample :
    (goFields "//genconstructor -e -s").contains "-s" = true ∧
    (goFields "//genconstructor -e -s").contains "-e" = true ∧
    scanOpts (goFields "//genconstructor -e -s") = ⟨false, false, true⟩ := by decide

/-- Claim C6, amended: the marker comment line is tokenized on whitespace
and the first token equal to one of `-p`, `-s`, `-e` determines the single
flag that is set, so at most one of the three option flags is ever set per
type; a line with `-s` before `-e` picks `-s`, and one with `-e` before
`-s` picks `-e`. -/
theorem C6_first_match_wins (line : String) :
    scanOpts (goFields line) = optsFromFound ((goFields line).find? isOptToken) ∧
    flagCount (scanOpts (goFields line)) ≤ 1 := by
  refine ⟨scanOpts_eq_optsFromFound _, ?_⟩
  rw [scanOpts_eq_optsFromFound]
  exact flagCount_optsFromFound _

/-! ## Lemmas about field classification -/

theorem classifyStep_not_included (st : ClassifyState) (f : GoField)
    (h : includedB f = false) : classifyStep st f = .ok st := by
  unfold classifyStep
  unfold includedB at h
  cases htag : f.tag with
  | none => rfl
  | some tes =>
    rw [htag] at h
    dsimp only at h ⊢
    have hc : (!(tagLookup tes "required").isSome &&
        !(tagLookup tes "super").isSome) = true := by
      rw [← Bool.not_or, h]; rfl
    rw [if_pos hc]

theorem classifyStep_included_ok (st st' : ClassifyState) (f : GoField)
    (hinc : includedB f = true) (h : classifyStep st f = .ok st') :
    ∃ ty es, f.typePrint = .ok ty ∧
      fieldImportEntries f (constValueOf f) = .ok es ∧
      st' = ⟨st.fieldInfos ++ [⟨ty, f.name, constValueOf f⟩],
             if hasSuperTagB f then f.name else st.superName,
             st.entries ++ es⟩ := by
  unfold classifyStep at h
  unfold includedB at hinc
  cases htag : f.tag with
  | none => rw [htag] at hinc; exact absurd hinc (by simp)
  | some tes =>
    rw [htag] at h hinc
    dsimp only at h hinc
    have hc : ¬((!(tagLookup tes "required").isSome &&
        !(tagLookup tes "super").isSome) = true) := by
      rw [← Bool.not_or, hinc]; simp
    rw [if_neg hc] at h
    have hcv : constValueOf f = (tagLookup tes "required").getD "" := by
      unfold constValueOf; rw [htag]
    have hsn : hasSuperTagB f = (tagLookup tes "super").isSome := by
      unfold hasSuperTagB; rw [htag]
    cases hty : f.typePrint with
    | error e => rw [hty] at h; exact absurd h (by simp)
    | ok ty =>
      rw [hty] at h
      cases hes : fieldImportEntries f ((tagLookup tes "required").getD "") with
      | error e =>
        rw [hes] at h
        exact absurd h (by simp)
      | ok es =>
        rw [hes] at h
        simp only [Except.ok.injEq] at h
        refine ⟨ty, es, rfl, by rw [hcv]; exact hes, ?_⟩
        rw [← h, hcv, hsn]

theorem classifyStep_included_fail (st : ClassifyState) (f : GoField)
    (hinc : includedB f = true) (hfail : fieldFailsB f = true) :
    ∃ e, classifyStep st f = .error e := by
  unfold classifyStep
  unfold includedB at hinc
  cases htag : f.tag with
  | none => rw [htag] at hinc; exact absurd hinc (by simp)
  | some tes =>
    rw [htag] at hinc
    dsimp only at hinc ⊢
    have hc : ¬((!(tagLookup tes "required").isSome &&
        !(tagLookup tes "super").isSome) = true) := by
      rw [← Bool.not_or, hinc]; simp
    rw [if_neg hc]
    have hcv : constValueOf f = (tagLookup tes "required").getD "" := by
      unfold constValueOf; rw [htag]
    cases hty : f.typePrint with
    | error e => exact ⟨e, rfl⟩
    | ok ty =>
      unfold fieldFailsB at hfail
      rw [hty, hcv] at hfail
      simp only [exceptErr, Bool.false_or] at hfail
      cases hes : fieldImportEntries f ((tagLookup tes "required").getD "") with
      | error e => exact ⟨e, rfl⟩
      | ok es => rw [hes] at hfail; simp at hfail

theorem classifyGo_ok_spec (fs : List GoField) :
    ∀ st st', classifyGo st fs = .ok st' →
      st'.fieldInfos = st.fieldInfos ++ (fs.filter includedB).map infoOf ∧
      st'.entries = st.entries ++ (fs.map fieldEntriesD).flatten ∧
      ∀ f ∈ fs, includedB f = true →
        exceptErr f.typePrint = false ∧
        exceptErr (fieldImportEntries f (constValueOf f)) = false := by
  induction fs with
  | nil =>
    intro st st' h
    unfold classifyGo at h
    cases h
    simp
  | cons f fs ih =>
    intro st st' h
    unfold classifyGo at h
    cases hstep : classifyStep st f with
    | error e => rw [hstep] at h; exact absurd h (by simp)
    | ok st1 =>
      rw [hstep] at h
      obtain ⟨h1, h2, h3⟩ := ih st1 st' h
      cases hinc : includedB f with
      | true =>
        obtain ⟨ty, es, hty, hes, hst1⟩ := classifyStep_included_ok st st1 f hinc hstep
        refine ⟨?_, ?_, ?_⟩
        · rw [h1, hst1]
          simp [List.filter_cons, hinc, infoOf, typePrintD, hty]
        · rw [h2, hst1]
          simp [fieldEntriesD, hinc, hes]
        · intro g hg hginc
          rcases List.mem_cons.mp hg with hgf | hgtail
          · subst hgf
            exact ⟨by rw [hty]; rfl, by rw [hes]; rfl⟩
          · exact h3 g hgtail hginc
      | false =>
        rw [classifyStep_not_included st f hinc] at hstep
        cases hstep
        refine ⟨?_, ?_, ?_⟩
        · rw [h1]; simp [List.filter_cons, hinc]
        · rw [h2]; simp [fieldEntriesD, hinc]
        · intro g hg hginc
          rcases List.mem_cons.mp hg with hgf | hgtail
          · subst hgf; rw [hinc] at hginc; cases hginc
          · exact h3 g hgtail hginc

/-! ## Claim C3 -/

/-- Claim C3, counterexample: a field carrying both recognized tag keys at
once (`required` and `super`) does not carry exactly one of them, yet it is
included in the synthesis set: classification records a `FieldInfo` for it
(and its name as the designated base). -/
theorem C3_counterexample :
    hasRequiredTagB bothField = true ∧
    hasSuperTagB bothField = true ∧
    classifyFields [bothField] =
      .ok ⟨[⟨"bool", "Flag", "1"⟩], "Flag", []⟩ := by decide

/-- Claim C3, amended: a field is included in the synthesis set iff it
carries a struct tag with at least one of the two recognized keys
(`required` or `super`); fields with no tag or with neither key contribute
nothing and cause no error: the collected `fieldInfos` are exactly the
included fields, in order. -/
theorem C3_included_iff_tagged (fs : List GoField) (st : ClassifyState)
    (h : classifyFields fs = .ok st) :
    st.fieldInfos = (fs.filter includedB).map infoOf := by
  have h1 := (classifyGo_ok_spec fs _ _ h).1
  simpa using h1

/-- Claim C3, witness: classifying the untagged `Point` fields followed by
the tagged `AdminUser` fields yields exactly the two `AdminUser` field
records. -/
theorem C3_witness :
    (⟨[⟨"*UserBase", "Base", ""⟩, ⟨"string", "Role", "\"admin\""⟩], "Base", []⟩
        : ClassifyState).fieldInfos
      = ((pointStruct.fields ++ adminStruct.fields).filter includedB).map infoOf :=
  C3_included_iff_tagged (pointStruct.fields ++ adminStruct.fields)
    ⟨[⟨"*UserBase", "Base", ""⟩, ⟨"string", "Role", "\"admin\""⟩], "Base", []⟩
    (by decide)

/-! ## Claim C10 -/

/-- Claim C10: a field whose `required` tag value is the empty string is
included in the synthesis set but treated as a caller-supplied parameter:
its `FieldInfo` carries the empty constant, the parameter fragment for it
is present, the body assignment uses the parameter (never the constant
branch), and the import collector merges the field's own type imports
instead of scanning the empty constant expression. -/
theorem C10_empty_required_value (f : GoField) (tes : List (String × String))
    (ty : String) (st : ClassifyState)
    (htag : f.tag = some tes)
    (hreq : tagLookup tes "required" = some "")
    (hty : f.typePrint = .ok ty) :
    includedB f = true ∧
    classifyStep st f = .ok ⟨st.fieldInfos ++ [⟨ty, f.name, ""⟩],
      if hasSuperTagB f then f.name else st.superName,
      st.entries ++ f.typeImports⟩ ∧
    fieldImportEntries f (constValueOf f) = .ok f.typeImports ∧
    (∀ p : TmplParam, (paramFragment p ⟨ty, f.name, ""⟩).isSome = true ∧
      assignValue p ⟨ty, f.name, ""⟩ =
        (if p.Extends && (toUpperCamel f.name = p.InterfaceName) then
          "x.(*" ++ f.name ++ ")"
        else toLowerCamel f.name)) := by
  have hcv0 : constValueOf f = (tagLookup tes "required").getD "" := by
    unfold constValueOf; rw [htag]
  have hcv : constValueOf f = "" := by rw [hcv0, hreq]; rfl
  have hsn : hasSuperTagB f = (tagLookup tes "super").isSome := by
    unfold hasSuperTagB; rw [htag]
  have hfe : fieldImportEntries f "" = .ok f.typeImports := by
    unfold fieldImportEntries; simp
  have hincl : includedB f =
      ((tagLookup tes "required").isSome || (tagLookup tes "super").isSome) := by
    unfold includedB; rw [htag]
  refine ⟨?_, ?_, ?_, ?_⟩
  · rw [hincl, hreq]; simp
  · unfold classifyStep
    rw [htag]
    dsimp only
    rw [hreq]
    rw [if_neg (by simp)]
    rw [hty]
    dsimp only
    simp only [Option.getD_some]
    rw [hfe]
    dsimp only
    rw [← hsn]
  · rw [hcv]; exact hfe
  · intro p
    constructor
    · simp [paramFragment]
    · simp [assignValue]

/-- Claim C10, witness: the `ID` field tagged `required:""` instantiates
the theorem; its parameter fragment is present and its import contribution
is its own type's import entry. -/
theorem C10_witness :
    (paramFragment ⟨"Event", "", [], false, false, false⟩
        ⟨"uuid.UUID", "ID", ""⟩).isSome = true ∧
    fieldImportEntries emptyRequiredField (constValueOf emptyRequiredField) =
      .ok emptyRequiredField.typeImports :=
  have h := C10_empty_required_value emptyRequiredField
    [("required", "")] "uuid.UUID" ⟨[], "", []⟩ rfl rfl rfl
  ⟨(h.2.2.2 ⟨"Event", "", [], false, false, false⟩).1, h.2.2.1⟩

/-! ## Error propagation (claim C8) -/

theorem classifyGo_fail (fs : List GoField) :
    ∀ (st : ClassifyState) (f : GoField), f ∈ fs → includedB f = true →
      fieldFailsB f = true → ∃ e, classifyGo st fs = .error e := by
  induction fs with
  | nil =>
    intro st f hf _ _
    exact absurd hf (List.not_mem_nil f)
  | cons g gs ih =>
    intro st f hf hinc hfail
    rcases List.mem_cons.mp hf with hfg | hft
    · subst hfg
      obtain ⟨e, he⟩ := classifyStep_included_fail st f hinc hfail
      exact ⟨e, by unfold classifyGo; rw [he]⟩
    · cases hstep : classifyStep st g with
      | error e => exact ⟨e, by unfold classifyGo; rw [hstep]⟩
      | ok st1 =>
        obtain ⟨e, he⟩ := ih st1 f hft hinc hfail
        refine ⟨e, ?_⟩
        unfold classifyGo
        rw [hstep]
        exact he

theorem processSpec_fail (s : StructSpec) (f : GoField)
    (hm : markedB s = true) (hf : f ∈ s.fields) (hinc : includedB f = true)
    (hfail : fieldFailsB f = true) : ∃ e, processSpec s = .error e := by
  obtain ⟨e, he⟩ := classifyGo_fail s.fields ⟨[], "", []⟩ f hf hinc hfail
  unfold markedB at hm
  cases hfc : findMarkerComment s.docs with
  | none => rw [hfc] at hm; simp at hm
  | some c =>
    refine ⟨e, ?_⟩
    unfold processSpec
    have hde : s.docs.isEmpty = false := by
      cases hdocs : s.docs with
      | nil => rw [hdocs] at hfc; simp [findMarkerComment] at hfc
      | cons a l => rfl
    rw [hde, if_neg (by simp), hfc]
    dsimp only
    have hcf : classifyFields s.fields = .error e := he
    rw [hcf]

theorem processSpecs_fail (s : StructSpec) (herr : ∃ e, processSpec s = .error e) :
    ∀ specs : List StructSpec, s ∈ specs → ∃ e, processSpecs specs = .error e := by
  intro specs
  induction specs with
  | nil => intro hmem; exact absurd hmem (List.not_mem_nil s)
  | cons s0 ss ih =>
    intro hmem
    rcases List.mem_cons.mp hmem with h0 | ht
    · subst h0
      obtain ⟨e, he⟩ := herr
      exact ⟨e, by unfold processSpecs; rw [he]⟩
    · cases hps : processSpec s0 with
      | error e => exact ⟨e, by unfold processSpecs; rw [hps]⟩
      | ok p =>
        obtain ⟨b1, es1⟩ := p
        obtain ⟨e, he⟩ := ih ht
        refine ⟨e, ?_⟩
        unfold processSpecs
        rw [hps]
        dsimp only
        rw [he]

/-- Claim C8: when printing an included field's type fails, or an
identifier of its constant-value expression cannot be resolved, the
processing of the compilation-unit group returns that error to the caller
and nothing at all is written for the group: no output is produced for
it. -/
theorem C8_error_aborts_group
    (enum : List (String × String) → List (String × String)) (genName : String)
    (g : PkgGroup) (s : StructSpec) (f : GoField)
    (hs : s ∈ g.specs) (hm : markedB s = true) (hf : f ∈ s.fields)
    (hinc : includedB f = true) (hfail : fieldFailsB f = true) :
    ∃ e, runGroupWith enum genName g = .error e ∧
      runWith enum genName [g] = ([], some e) := by
  obtain ⟨e, he⟩ :=
    processSpecs_fail s (processSpec_fail s f hm hf hinc hfail) g.specs hs
  have hr : runGroupWith enum genName g = .error e := by
    unfold runGroupWith; rw [he]
  refine ⟨e, hr, ?_⟩
  unfold runWith
  rw [hr]

/-- Claim C8, witness: the `Event` struct whose `At` field carries the
constant expression `clock.Now()` with no matching import aborts the run
with that resolution error and writes nothing. -/
theorem C8_witness :
    ∃ e, runGroupWith (fun l => l) defaultGeneratorName badConstGroup = .error e ∧
      runWith (fun l => l) defaultGeneratorName [badConstGroup] = ([], some e) :=
  C8_error_aborts_group (fun l => l) defaultGeneratorName badConstGroup
    badConstStruct badConstField (by decide) (by decide) (by decide) (by decide)
    (by decide)

/-! ## The import table (claim C7) -/

theorem contains_true_iff (l : List String) (x : String) :
    l.contains x = true ↔ x ∈ l := by
  simp

theorem mem_keys_mapInsertEntry (m : List (String × String))
    (e : String × String) (k : String) :
    k ∈ (mapInsertEntry m e).map Prod.fst ↔ k = e.1 ∨ k ∈ m.map Prod.fst := by
  unfold mapInsertEntry
  simp only [List.map_append, List.mem_append, List.map_cons, List.map_nil,
    List.mem_cons, List.not_mem_nil, or_false, List.mem_map, List.mem_filter]
  constructor
  · rintro (⟨x, ⟨hxm, _⟩, hxk⟩ | hk)
    · exact Or.inr ⟨x, hxm, hxk⟩
    · exact Or.inl hk
  · rintro (hk | ⟨x, hxm, hxk⟩)
    · exact Or.inr hk
    · by_cases hx : x.1 = e.1
      · exact Or.inr (by rw [← hxk, hx])
      · exact Or.inl ⟨x, ⟨hxm, by simp [hx]⟩, hxk⟩

theorem mem_keys_foldl (es : List (String × String)) :
    ∀ (m : List (String × String)) (k : String),
      k ∈ (es.foldl mapInsertEntry m).map Prod.fst ↔
        k ∈ m.map Prod.fst ∨ k ∈ es.map Prod.fst := by
  induction es with
  | nil => intro m k; simp
  | cons e es ih =>
    intro m k
    simp only [List.foldl_cons, List.map_cons, List.mem_cons]
    rw [ih, mem_keys_mapInsertEntry]
    tauto

theorem resolveTokens_key (imap : List (String × String)) (k : String) :
    ∀ (ts : List String) (es : List (String × String)),
      resolveTokens imap ts = .ok es →
      (k ∈ es.map Prod.fst ↔ (ts.any fun t =>
        match resolveIdentImports imap t with
        | .ok es' => (es'.map Prod.fst).contains k
        | .error _ => false) = true) := by
  intro ts
  induction ts with
  | nil =>
    intro es h
    unfold resolveTokens at h
    simp only [Except.ok.injEq] at h
    subst h
    simp
  | cons t ts ih =>
    intro es h
    unfold resolveTokens at h
    cases hr : resolveIdentImports imap t with
    | error e => rw [hr] at h; simp at h
    | ok es1 =>
      rw [hr] at h
      dsimp only at h
      cases hrest : resolveTokens imap ts with
      | error e => rw [hrest] at h; simp at h
      | ok rest =>
        rw [hrest] at h
        simp only [Except.ok.injEq] at h
        subst h
        rw [List.any_cons]
        simp only [List.map_append, List.mem_append]
        rw [ih rest hrest, hr]
        simp only [Bool.or_eq_true, contains_true_iff, List.mem_map]

theorem fieldEntriesD_key (f : GoField) (k : String)
    (hinc : includedB f = true) (es : List (String × String))
    (hes : fieldImportEntries f (constValueOf f) = .ok es) :
    (k ∈ (fieldEntriesD f).map Prod.fst ↔ fieldImportKeyB f k = true) := by
  have hfd : fieldEntriesD f = es := by
    unfold fieldEntriesD
    simp only [hinc, if_true]
    rw [hes]
  have hes' := hes
  unfold fieldImportEntries at hes'
  rw [hfd]
  unfold fieldImportKeyB
  by_cases hcv : constValueOf f ≠ ""
  · rw [if_pos hcv] at hes'
    rw [if_pos hcv]
    exact resolveTokens_key f.fileImports k (constTokens (constValueOf f)) es hes'
  · rw [if_neg hcv] at hes'
    simp only [Except.ok.injEq] at hes'
    rw [if_neg hcv, ← hes']
    exact (contains_true_iff _ _).symm

theorem processSpec_ok_entries (s : StructSpec) (b : String)
    (es : List (String × String)) (h : processSpec s = .ok (b, es)) :
    es = (if markedB s then (s.fields.map fieldEntriesD).flatten else []) ∧
    (markedB s = true → ∀ f ∈ s.fields, includedB f = true →
      exceptErr (fieldImportEntries f (constValueOf f)) = false) := by
  unfold processSpec at h
  unfold markedB
  cases hde : s.docs.isEmpty with
  | true =>
    rw [hde, if_pos rfl] at h
    simp only [Except.ok.injEq, Prod.mk.injEq] at h
    have hdocs : s.docs = [] := List.isEmpty_iff.mp hde
    rw [hdocs]
    constructor
    · rw [← h.2]; simp [findMarkerComment]
    · intro hm; simp [findMarkerComment] at hm
  | false =>
    rw [hde, if_neg (by simp)] at h
    cases hfc : findMarkerComment s.docs with
    | none =>
      rw [hfc] at h
      dsimp only at h
      simp only [Except.ok.injEq, Prod.mk.injEq] at h
      constructor
      · rw [← h.2]; simp
      · intro hm; simp at hm
    | some c =>
      rw [hfc] at h
      dsimp only at h
      cases hcf : classifyFields s.fields with
      | error e => rw [hcf] at h; simp at h
      | ok st =>
        rw [hcf] at h
        dsimp only at h
        simp only [Except.ok.injEq, Prod.mk.injEq] at h
        obtain ⟨_, hes⟩ := h
        obtain ⟨_, h2, h3⟩ := classifyGo_ok_spec s.fields _ _ hcf
        constructor
        · rw [← hes, h2]; simp
        · intro _ f hf hinc; exact (h3 f hf hinc).2

theorem specEntries_key (s : StructSpec) (b : String)
    (es : List (String × String)) (h : processSpec s = .ok (b, es)) (k : String) :
    k ∈ es.map Prod.fst ↔ (markedB s = true ∧
      ∃ f ∈ s.fields, includedB f = true ∧ fieldImportKeyB f k = true) := by
  obtain ⟨hes, hok⟩ := processSpec_ok_entries s b es h
  cases hm : markedB s with
  | false =>
    rw [hes, if_neg (by simp [hm])]
    simp [hm]
  | true =>
    rw [hes, if_pos hm]
    simp only [hm, eq_self_iff_true, true_and]
    have hflat : ((s.fields.map fieldEntriesD).flatten).map Prod.fst
        = ((s.fields.map fieldEntriesD).map (List.map Prod.fst)).flatten := by
      rw [List.map_flatten]
    rw [hflat]
    rw [List.mem_flatten]
    constructor
    · rintro ⟨lst, hlst, hk⟩
      simp only [List.mem_map] at hlst
      obtain ⟨ents, ⟨f, hf, hfe⟩, hlst'⟩ := hlst
      subst hfe
      subst hlst'
      have hincf : includedB f = true := by
        by_contra hni
        have hni' : includedB f = false := by
          cases hb : includedB f
          · rfl
          · exact absurd hb hni
        unfold fieldEntriesD at hk
        rw [hni'] at hk
        simp at hk
      obtain ⟨es0, hes0⟩ : ∃ es0,
          fieldImportEntries f (constValueOf f) = .ok es0 := by
        have := hok hm f hf hincf
        cases hfi : fieldImportEntries f (constValueOf f) with
        | error e => rw [hfi] at this; simp [exceptErr] at this
        | ok es0 => exact ⟨es0, rfl⟩
      exact ⟨f, hf, hincf, (fieldEntriesD_key f k hincf es0 hes0).mp hk⟩
    · rintro ⟨f, hf, hincf, hkey⟩
      obtain ⟨es0, hes0⟩ : ∃ es0,
          fieldImportEntries f (constValueOf f) = .ok es0 := by
        have := hok hm f hf hincf
        cases hfi : fieldImportEntries f (constValueOf f) with
        | error e => rw [hfi] at this; simp [exceptErr] at this
        | ok es0 => exact ⟨es0, rfl⟩
      refine ⟨(fieldEntriesD f).map Prod.fst, ?_, ?_⟩
      · simp only [List.mem_map]
        exact ⟨fieldEntriesD f, ⟨f, hf, rfl⟩, rfl⟩
      · exact (fieldEntriesD_key f k hincf es0 hes0).mpr hkey

theorem processSpecs_ok_key (specs : List StructSpec) :
    ∀ b es, processSpecs specs = .ok (b, es) → ∀ k,
      (k ∈ es.map Prod.fst ↔ ∃ s ∈ specs, markedB s = true ∧
        ∃ f ∈ s.fields, includedB f = true ∧ fieldImportKeyB f k = true) := by
  induction specs with
  | nil =>
    intro b es h k
    unfold processSpecs at h
    simp only [Except.ok.injEq, Prod.mk.injEq] at h
    rw [← h.2]
    simp
  | cons s ss ih =>
    intro b es h k
    unfold processSpecs at h
    cases hps : processSpec s with
    | error e => rw [hps] at h; simp at h
    | ok p =>
      obtain ⟨b1, es1⟩ := p
      rw [hps] at h
      dsimp only at h
      cases hpss : processSpecs ss with
      | error e => rw [hpss] at h; simp at h
      | ok q =>
        obtain ⟨b2, es2⟩ := q
        rw [hpss] at h
        dsimp only at h
        simp only [Except.ok.injEq, Prod.mk.injEq] at h
        obtain ⟨_, hes⟩ := h
        subst hes
        rw [List.map_append, List.mem_append]
        rw [ih b2 es2 hpss k, specEntries_key s b1 es1 hps k]
        constructor
        · rintro (⟨hm, f, hf, hi, hk⟩ | ⟨s', hs', rest⟩)
          · exact ⟨s, List.mem_cons_self s ss, hm, f, hf, hi, hk⟩
          · exact ⟨s', List.mem_cons_of_mem s hs', rest⟩
        · rintro ⟨s', hs', hm', f, hf, hi, hk⟩
          rcases List.mem_cons.mp hs' with rfl | ht
          · exact Or.inl ⟨hm', f, hf, hi, hk⟩
          · exact Or.inr ⟨s', ht, hm', f, hf, hi, hk⟩

/-- Claim C7: for a compilation-unit group whose pass succeeds, the
accumulated import table has an entry for an alias exactly when some
included field of some marked struct references it: through the field's
own type imports when the field has no constant value, or through an
identifier token of its constant-value expression that resolves to an
imported namespace; a field with a constant value contributes nothing from
its own type, and no unreferenced namespace appears. -/
theorem C7_import_table_keys (g : PkgGroup) (hok : groupOkB g = true) (k : String) :
    (((groupImportTable g).map Prod.fst).contains k = true ↔
      groupImportKeyB g k = true) := by
  unfold groupOkB at hok
  cases hps : processSpecs g.specs with
  | error e => rw [hps] at hok; simp [exceptErr] at hok
  | ok p =>
    obtain ⟨b, es⟩ := p
    have hge : groupEntries g = es := by unfold groupEntries; rw [hps]
    unfold groupImportTable
    rw [hge, contains_true_iff, mem_keys_foldl]
    simp only [List.map_nil, List.not_mem_nil, false_or]
    rw [processSpecs_ok_key g.specs b es hps k]
    unfold groupImportKeyB
    simp only [List.any_eq_true, Bool.and_eq_true]

/-- Claim C7, witness: in the `Event` group the alias `time`, referenced
only through the constant expression `time.Now()`, is a key of the
accumulated import table. -/
theorem C7_witness :
    ((groupImportTable importsGroup).map Prod.fst).contains "time" = true ↔
      groupImportKeyB importsGroup "time" = true :=
  C7_import_table_keys importsGroup (by decide) "time"

/-! ## Determinism of the output (claim C9) -/

theorem goFmtImports_perm {l1 l2 : List (String × String)} (h : l1.Perm l2) :
    goFmtImports l1 = goFmtImports l2 := by
  unfold goFmtImports
  have hsort : l1.insertionSort pairLe = l2.insertionSort pairLe :=
    List.eq_of_perm_of_sorted
      ((List.perm_insertionSort pairLe l1).trans
        (h.trans (List.perm_insertionSort pairLe l2).symm))
      (List.sorted_insertionSort pairLe l1)
      (List.sorted_insertionSort pairLe l2)
  cases h1 : l1.isEmpty with
  | true =>
    have hn1 : l1 = [] := List.isEmpty_iff.mp h1
    subst hn1
    have hn2 : l2 = [] := h.symm.eq_nil
    subst hn2
    rfl
  | false =>
    have h2 : l2.isEmpty = false := by
      cases hl2 : l2.isEmpty with
      | true =>
        have hn2 : l2 = [] := List.isEmpty_iff.mp hl2
        subst hn2
        have hn1 : l1 = [] := h.eq_nil
        rw [hn1] at h1
        simp at h1
      | false => rfl
    rw [h2, hsort]

theorem runGroupWith_enum_eq
    (enum1 enum2 : List (String × String) → List (String × String))
    (h1 : ∀ l, (enum1 l).Perm l) (h2 : ∀ l, (enum2 l).Perm l)
    (genName : String) (g : PkgGroup) :
    runGroupWith enum1 genName g = runGroupWith enum2 genName g := by
  unfold runGroupWith
  cases hps : processSpecs g.specs with
  | error e => rfl
  | ok p =>
    obtain ⟨body, entries⟩ := p
    dsimp only
    by_cases hb : body = ""
    · rw [if_pos hb, if_pos hb]
    · rw [if_neg hb, if_neg hb]
      have hperm : (enum1 (entries.foldl mapInsertEntry [])).Perm
          (enum2 (entries.foldl mapInsertEntry [])) :=
        (h1 _).trans (h2 _).symm
      rw [goFmtImports_perm hperm]

/-- Claim C9: the run is deterministic. The only nondeterminism in `Run`
is the order in which Go's `range` enumerates the accumulated import map;
for any two enumeration orders of that map, the produced outputs are
byte-identical for every compilation-unit group, because the import block
is emitted in sorted order and everything else is a pure function of the
input. -/
theorem C9_deterministic_output
    (enum1 enum2 : List (String × String) → List (String × String))
    (genName : String) (gs : List PkgGroup)
    (h1 : ∀ l, (enum1 l).Perm l) (h2 : ∀ l, (enum2 l).Perm l) :
    runWith enum1 genName gs = runWith enum2 genName gs := by
  induction gs with
  | nil => rfl
  | cons g gs ih =>
    unfold runWith
    rw [runGroupWith_enum_eq enum1 enum2 h1 h2 genName g]
    cases runGroupWith enum2 genName g with
    | error e => rfl
    | ok o =>
      cases o with
      | none => exact ih
      | some out => rw [ih]

/-- Claim C9, witness: enumerating the `Event` group's import map in merge
order and in reversed order produces the same written output. -/
theorem C9_witness :
    runWith (fun l => l) defaultGeneratorName [importsGroup] =
      runWith List.reverse defaultGeneratorName [importsGroup] :=
  C9_deterministic_output (fun l => l) List.reverse defaultGeneratorName
    [importsGroup] (fun l => List.Perm.refl l) (fun l => List.reverse_perm l)

end Genconstructor
